import Mathlib

/-!
Shallow embedding of the incremental harvest engine in `src/main.py`
(`run_scraper`, `get_detail`).  The browser transport is abstracted: a
detail page that the driver visits is modelled as a `Listing` holding the
text of each DOM element the code queries (`none` when the element is
absent from the page).  Google-Sheets state is modelled as the list of
cell values of column 1 of the worksheet (`col1`), the only part of the
sheet the code reads.
-/

namespace Scraper

/-- Python whitespace as stripped by `str.strip()` (ASCII subset; the
labels handled by the code contain only these). -/
def pyIsSpace (c : Char) : Bool :=
  c = ' ' || c = '\t' || c = '\n' || c = '\r' || c = '\x0b' || c = '\x0c'

/-- Python `str.strip()` on the character list: drop whitespace from both
ends. -/
def pyStripChars (l : List Char) : List Char :=
  ((l.dropWhile pyIsSpace).reverse.dropWhile pyIsSpace).reverse

/-- Python `str.split(sep)` for a one-character separator, on character
lists: split at every occurrence, keeping empty pieces, so the result
always has one more piece than there are separators. -/
def pySplitChars (sep : Char) : List Char → List (List Char)
  | [] => [[]]
  | c :: cs =>
    if c = sep then [] :: pySplitChars sep cs
    else
      match pySplitChars sep cs with
      | [] => [[c]]
      | p :: ps => (c :: p) :: ps

/-- Python `pat in s` on character lists: some suffix starts with `pat`. -/
def containsChars (pat : List Char) : List Char → Bool
  | [] => pat.isPrefixOf []
  | c :: cs => pat.isPrefixOf (c :: cs) || containsChars pat cs

/-- Python `str.replace(pat, rep)` on character lists, fuelled so the
recursion is structural (the fuel is set to the length of the input, and
each step consumes at least one character when `pat` is non-empty, so the
fuel never runs out in `pyReplaceChars`): replace every leftmost
non-overlapping occurrence of `pat` by `rep`. -/
def pyReplaceFuel (pat rep : List Char) : Nat → List Char → List Char
  | _, [] => []
  | 0, l => l
  | fuel + 1, c :: cs =>
    if pat.isPrefixOf (c :: cs) ∧ pat ≠ [] then
      rep ++ pyReplaceFuel pat rep fuel (cs.drop (pat.length - 1))
    else c :: pyReplaceFuel pat rep fuel cs

/-- Python `str.replace(pat, rep)` on character lists. -/
def pyReplaceChars (pat rep l : List Char) : List Char :=
  pyReplaceFuel pat rep l.length l

/-- Python `s.replace(pat, rep)` on strings. -/
def pyReplace (s pat rep : String) : String :=
  ⟨pyReplaceChars pat.data rep.data s.data⟩

/-- Python `s.strip()` on strings. -/
def pyStrip (s : String) : String := ⟨pyStripChars s.data⟩

/-- Python `s.split(' ')` on strings. -/
def pySplitSpace (s : String) : List String :=
  (pySplitChars ' ' s.data).map (fun l => ⟨l⟩)

/-- Python substring test `pat in s`. -/
def containsSub (s pat : String) : Bool := containsChars pat.data s.data

/-- One business detail page, as seen through the selectors the code uses.
`h1` is the text of the `h1` element (`none` when the element never
appears, which makes the `wait.until` at main.py:112 time out and the
listing be skipped).  `address`, `website`, `phone` are the texts of the
`data-item-id` elements read through `get_detail`.  `category` is the text
of the category button, `none` when `find_element` raises.  `ratingAria` is
`none` when the `moreReviews` container is absent (`find_element` raises),
`some a` when it is present with `get_attribute` result `a` (`a = none`
models a missing `aria-label`). -/
structure Listing where
  h1 : Option String
  address : Option String
  website : Option String
  phone : Option String
  category : Option String
  ratingAria : Option (Option String)
deriving Repr, DecidableEq

/-- main.py:35-41 `get_detail`: text of the element, or the sentinel
string when `find_element` raises `NoSuchElementException`. -/
def get_detail (o : Option String) : String := o.getD "N/A"

/-- main.py:127-140: category, reviews and rating extraction.  Defaults
are `("N/A", "0", "N/A")`; the `try` block first reads the category text
(raising if the element is absent, which keeps all three defaults), then
the rating container (raising keeps the category already assigned), then
parses the `aria-label` only when it is a string containing `"stars"`:
the label with `"stars"` removed is stripped and split on single spaces;
piece 0 becomes the rating and, when there are several pieces, the last
piece with `"Reviews"` removed and stripped becomes the review count.
Returns `(category, reviews_text, rating_text)`. -/
def parseExtras (cat : Option String) (ratingAria : Option (Option String)) :
    String × String × String :=
  match cat with
  | none => ("N/A", "0", "N/A")
  | some c =>
    match ratingAria with
    | none => (c, "0", "N/A")
    | some none => (c, "0", "N/A")
    | some (some lbl) =>
      if containsSub lbl "stars" then
        let parts := pySplitSpace (pyStrip (pyReplace lbl "stars" ""))
        let rating := parts.headD ""
        if 1 < parts.length then
          (c, pyStrip (pyReplace (parts.getLastD "") "Reviews" ""), rating)
        else
          (c, "0", rating)
      else (c, "0", "N/A")

/-- main.py:142-145: the row appended for an accepted listing, in the
order name, category, address, rating, reviews, website, phone,
timestamp.  `now` is the `datetime.now()` string. -/
def buildRow (now : String) (name : String) (l : Listing) : List String :=
  let e := parseExtras l.category l.ratingAria
  [name, e.1, get_detail l.address, e.2.2, e.2.1,
   get_detail l.website, get_detail l.phone, now]

/-- main.py:107-150, the detail loop: `existing` is the mutable
`existing_data` set (a list under membership).  A listing with no `h1`
times out and is skipped; an empty or already-seen name is skipped;
otherwise the row is accumulated and the name added to `existing`. -/
def scrapeGo (now : String) : List String → List Listing → List (List String)
  | _, [] => []
  | existing, l :: ls =>
    match l.h1 with
    | none => scrapeGo now existing ls
    | some name =>
      if name = "" ∨ name ∈ existing then scrapeGo now existing ls
      else buildRow now name l :: scrapeGo now (name :: existing) ls

/-- main.py:43-161 `run_scraper`, reduced to its data flow: the dedup
seed is column 1 of the worksheet minus its first cell
(`worksheet.col_values(1)[1:]`, main.py:57), the loop visits at most 40
listings (`listing_urls[:40]`, main.py:107), and the accumulated rows are
the batch appended by `append_rows` (main.py:158). -/
def run_scraper (now : String) (col1 : List String) (listings : List Listing) :
    List (List String) :=
  scrapeGo now (col1.drop 1) (listings.take 40)

/-- Name cell (column 1 entry) of each appended row. -/
def appendedNames (rows : List (List String)) : List String :=
  rows.map (·.headD "")

/-- Column 1 of the worksheet after `append_rows`: the old cells followed
by the name cell of each appended row. -/
def sinkAfter (col1 : List String) (rows : List (List String)) : List String :=
  col1 ++ appendedNames rows

/-- main.py:152-158 under a provider failure: an exception raised while
processing listing index `k` (for example `driver.get` failing) escapes
the per-listing handlers, is caught by the outer handler at main.py:152,
and the rows accumulated from the first `k` listings are still appended
in the `finally`-then-append epilogue. -/
def run_scraperFail (now : String) (col1 : List String)
    (listings : List Listing) (k : Nat) : List (List String) :=
  scrapeGo now (col1.drop 1) ((listings.take 40).take k)

/-- Listing whose detail page has only an `h1` with text `n`. -/
def plainListing (n : String) : Listing :=
  ⟨some n, none, none, none, none, none⟩

/-- Listing whose detail page never shows an `h1` (the wait times out and
the listing is skipped). -/
def timeoutListing : Listing := ⟨none, none, none, none, none, none⟩

/-- Fifteen listings with distinct non-empty names, modelling a provider
result sequence of 15 unique new records. -/
def uniqueNames15 : List Listing :=
  List.map plainListing
    ["n01", "n02", "n03", "n04", "n05", "n06", "n07", "n08",
     "n09", "n10", "n11", "n12", "n13", "n14", "n15"]

/-! Helper lemmas about the loop. -/

theorem scrapeGo_cons_none (now : String) (ex : List String) (l : Listing)
    (ls : List Listing) (h : l.h1 = none) :
    scrapeGo now ex (l :: ls) = scrapeGo now ex ls := by
  simp [scrapeGo, h]

theorem scrapeGo_cons_skip (now : String) (ex : List String) (l : Listing)
    (ls : List Listing) (n : String) (h : l.h1 = some n)
    (hs : n = "" ∨ n ∈ ex) :
    scrapeGo now ex (l :: ls) = scrapeGo now ex ls := by
  simp only [scrapeGo, h]
  rw [if_pos hs]

theorem scrapeGo_cons_acc (now : String) (ex : List String) (l : Listing)
    (ls : List Listing) (n : String) (h : l.h1 = some n)
    (hs : ¬(n = "" ∨ n ∈ ex)) :
    scrapeGo now ex (l :: ls) = buildRow now n l :: scrapeGo now (n :: ex) ls := by
  simp only [scrapeGo, h]
  rw [if_neg hs]

theorem buildRow_headD (now n : String) (l : Listing) :
    (buildRow now n l).headD "" = n := rfl

theorem appendedNames_cons (row : List String) (rows : List (List String)) :
    appendedNames (row :: rows) = row.headD "" :: appendedNames rows := rfl

theorem buildRow_length (now n : String) (l : Listing) :
    (buildRow now n l).length = 8 := rfl

theorem buildRow_getLastD (now n : String) (l : Listing) :
    (buildRow now n l).getLastD "" = now := rfl

/-- Core freshness invariant of the loop: the names of the accumulated
rows never repeat and never come from the starting dedup set. -/
theorem scrapeGo_fresh (now : String) (ls : List Listing) :
    ∀ ex : List String,
      (appendedNames (scrapeGo now ex ls)).Nodup ∧
      ∀ n ∈ appendedNames (scrapeGo now ex ls), n ∉ ex := by
  induction ls with
  | nil => intro ex; simp [scrapeGo, appendedNames]
  | cons l ls ih =>
    intro ex
    cases hh : l.h1 with
    | none => simpa [scrapeGo_cons_none now ex l ls hh] using ih ex
    | some n =>
      rcases Decidable.em (n = "" ∨ n ∈ ex) with hs | hs
      · simpa [scrapeGo_cons_skip now ex l ls n hh hs] using ih ex
      · obtain ⟨hnd, hfr⟩ := ih (n :: ex)
        have hn : n ∉ appendedNames (scrapeGo now (n :: ex) ls) :=
          fun hc => (hfr n hc) (List.mem_cons_self _ _)
        rw [scrapeGo_cons_acc now ex l ls n hh hs, appendedNames_cons,
          buildRow_headD]
        constructor
        · exact List.nodup_cons.mpr ⟨hn, hnd⟩
        · intro m hm
          rcases List.mem_cons.mp hm with rfl | hm
          · exact fun hc => hs (Or.inr hc)
          · exact fun hc => hfr m hm (List.mem_cons_of_mem _ hc)

/-- Every accumulated row comes from some listing via `buildRow`, so its
name cell is that listing resolved `h1` text, which is non-empty. -/
theorem scrapeGo_row_origin (now : String) (ls : List Listing) :
    ∀ ex row, row ∈ scrapeGo now ex ls →
      ∃ l ∈ ls, ∃ n, l.h1 = some n ∧ n ≠ "" ∧ row = buildRow now n l := by
  induction ls with
  | nil => intro ex row h; simp [scrapeGo] at h
  | cons l ls ih =>
    intro ex row h
    cases hh : l.h1 with
    | none =>
      rw [scrapeGo_cons_none now ex l ls hh] at h
      obtain ⟨l₂, hl₂, n, hn⟩ := ih ex row h
      exact ⟨l₂, List.mem_cons_of_mem _ hl₂, n, hn⟩
    | some n =>
      rcases Decidable.em (n = "" ∨ n ∈ ex) with hs | hs
      · rw [scrapeGo_cons_skip now ex l ls n hh hs] at h
        obtain ⟨l₂, hl₂, m, hm⟩ := ih ex row h
        exact ⟨l₂, List.mem_cons_of_mem _ hl₂, m, hm⟩
      · rw [scrapeGo_cons_acc now ex l ls n hh hs] at h
        rcases List.mem_cons.mp h with rfl | h
        · exact ⟨l, List.mem_cons_self _ _, n, hh,
            fun he => hs (Or.inl he), rfl⟩
        · obtain ⟨l₂, hl₂, m, hm⟩ := ih (n :: ex) row h
          exact ⟨l₂, List.mem_cons_of_mem _ hl₂, m, hm⟩

/-- If a dedup set already covers both the starting set and every name a
run would accumulate, a run from the larger set accumulates nothing. -/
theorem scrapeGo_absorbed (now2 now : String) (ls : List Listing) :
    ∀ ex ex2 : List String,
      (∀ n, n ∈ ex → n ∈ ex2) →
      (∀ n ∈ appendedNames (scrapeGo now ex ls), n ∈ ex2) →
      scrapeGo now2 ex2 ls = [] := by
  induction ls with
  | nil => intro ex ex2 _ _; simp [scrapeGo]
  | cons l ls ih =>
    intro ex ex2 hsub hnames
    cases hh : l.h1 with
    | none =>
      rw [scrapeGo_cons_none now ex l ls hh] at hnames
      exact (scrapeGo_cons_none now2 ex2 l ls hh).trans
        (ih ex ex2 hsub hnames)
    | some n =>
      rcases Decidable.em (n = "" ∨ n ∈ ex) with hs | hs
      · rw [scrapeGo_cons_skip now ex l ls n hh hs] at hnames
        have hs2 : n = "" ∨ n ∈ ex2 := hs.imp id (hsub n)
        exact (scrapeGo_cons_skip now2 ex2 l ls n hh hs2).trans
          (ih ex ex2 hsub hnames)
      · rw [scrapeGo_cons_acc now ex l ls n hh hs] at hnames
        rw [appendedNames_cons, buildRow_headD] at hnames
        have hmem : n ∈ ex2 := hnames n (List.mem_cons_self _ _)
        have hs2 : n = "" ∨ n ∈ ex2 := Or.inr hmem
        refine (scrapeGo_cons_skip now2 ex2 l ls n hh hs2).trans ?_
        refine ih (n :: ex) ex2 ?_ ?_
        · intro m hm
          rcases List.mem_cons.mp hm with rfl | hm
          · exact hmem
          · exact hsub m hm
        · intro m hm
          exact hnames m (List.mem_cons_of_mem _ hm)

theorem scrapeGo_length_le_helper (now : String) (ls : List Listing) :
    ∀ ex, (scrapeGo now ex ls).length ≤ ls.length := by
  induction ls with
  | nil => intro ex; simp [scrapeGo]
  | cons l ls ih =>
    intro ex
    cases hh : l.h1 with
    | none =>
      rw [scrapeGo_cons_none now ex l ls hh]
      exact (ih ex).trans (Nat.le_succ _)
    | some n =>
      rcases Decidable.em (n = "" ∨ n ∈ ex) with hs | hs
      · rw [scrapeGo_cons_skip now ex l ls n hh hs]
        exact (ih ex).trans (Nat.le_succ _)
      · rw [scrapeGo_cons_acc now ex l ls n hh hs]
        simpa using ih (n :: ex)

/-! Claim theorems. -/

/-- C1: in every run the appended record names are duplicate-free and
disjoint from the dedup seed (the worksheet column 1 minus its header
cell), for every processing order of the listings. -/
theorem appended_batch_dedup (now : String) (col1 : List String)
    (ls : List Listing) :
    (appendedNames (run_scraper now col1 ls)).Nodup ∧
    appendedNames (run_scraper now col1 ls) ∩ col1.drop 1 = [] := by
  obtain ⟨hnd, hfr⟩ := scrapeGo_fresh now (ls.take 40) (col1.drop 1)
  refine ⟨hnd, ?_⟩
  rw [List.inter_eq_nil_iff_disjoint]
  intro a ha hb
  exact hfr a ha hb

/-- C2 counterexample: the code has no page budget and no cursor store;
over a provider sequence of 15 unique new names a single invocation
appends all 15 records, not the 8 the claim asserts for the first
invocation. -/
theorem budget_eight_refuted :
    (run_scraper "t1" ["Name"] uniqueNames15).length ≠ 8 := by decide

/-- C2 amended: `run_scraper` persists no continuation cursor and has no
per-page budget; one invocation processes the entire collected listing
set (capped at 40 listings), so over a 15-unique-name sequence the first
invocation appends all 15 records and a second invocation against the
updated sheet appends none, thanks to the dedup seed rather than any
cursor. -/
theorem single_pass_no_cursor :
    (run_scraper "t1" ["Name"] uniqueNames15).length = 15 ∧
    run_scraper "t2"
      (sinkAfter ["Name"] (run_scraper "t1" ["Name"] uniqueNames15))
      uniqueNames15 = [] := by decide

/-- C3: running the harvest a second time against an unchanged listing
sequence, with the sheet already holding the first run rows (any sheet
with a header row, so the dedup seed covers the appended names), appends
zero new records. -/
theorem rerun_appends_nothing (now2 now : String) (col1 : List String)
    (ls : List Listing) (h : col1 ≠ []) :
    run_scraper now2 (sinkAfter col1 (run_scraper now col1 ls)) ls = [] := by
  obtain ⟨c, t, rfl⟩ := List.exists_cons_of_ne_nil h
  have hdrop : (sinkAfter (c :: t) (run_scraper now (c :: t) ls)).drop 1
      = t ++ appendedNames (run_scraper now (c :: t) ls) := by
    simp [sinkAfter]
  show scrapeGo now2
    ((sinkAfter (c :: t) (run_scraper now (c :: t) ls)).drop 1) (ls.take 40) = []
  rw [hdrop]
  exact scrapeGo_absorbed now2 now (ls.take 40) t _
    (fun n hn => List.mem_append_left _ hn)
    (fun n hn => List.mem_append_right _ hn)

/-- C3 witness: concrete second run over the same single listing with the
seeded sheet appends nothing. -/
theorem rerun_appends_nothing_witness :
    run_scraper "t2"
      (sinkAfter ["Name"] (run_scraper "t1" ["Name"] [plainListing "Joe"]))
      [plainListing "Joe"] = [] :=
  rerun_appends_nothing "t2" "t1" ["Name"] [plainListing "Joe"] (by decide)

/-- C4: every appended row carries a non-empty name taken from the `h1`
text of one of the listings, and a listing with no resolvable name (no
`h1`, or an empty `h1` text) is rejected outright, contributing nothing
to the batch. -/
theorem appended_name_nonempty :
    (∀ (now : String) (col1 : List String) (ls : List Listing)
        (row : List String), row ∈ run_scraper now col1 ls →
        row.headD "" ≠ "" ∧ ∃ l ∈ ls, l.h1 = some (row.headD "")) ∧
    (∀ (now : String) (ex : List String) (l : Listing) (ls : List Listing),
        l.h1 = none ∨ l.h1 = some "" →
        scrapeGo now ex (l :: ls) = scrapeGo now ex ls) := by
  constructor
  · intro now col1 ls row hrow
    obtain ⟨l, hl, n, hh, hne, rfl⟩ :=
      scrapeGo_row_origin now (ls.take 40) (col1.drop 1) row hrow
    rw [buildRow_headD]
    exact ⟨hne, l, List.take_subset _ _ hl, hh⟩
  · intro now ex l ls h
    rcases h with h | h
    · exact scrapeGo_cons_none now ex l ls h
    · exact scrapeGo_cons_skip now ex l ls "" h (Or.inl rfl)

/-- C4 witness: the concrete appended row for one listing has the name
"Joe" from that listing, and a listing with no `h1` is skipped. -/
theorem appended_name_nonempty_witness :
    ((["Joe", "N/A", "N/A", "N/A", "0", "N/A", "N/A", "t"] : List String).headD ""
        ≠ "" ∧
      ∃ l ∈ [plainListing "Joe"],
        l.h1 = some ((["Joe", "N/A", "N/A", "N/A", "0", "N/A", "N/A", "t"] :
          List String).headD "")) ∧
    scrapeGo "t" [] [timeoutListing, plainListing "Joe"] =
      scrapeGo "t" [] [plainListing "Joe"] :=
  ⟨appended_name_nonempty.1 "t" ["Name"] [plainListing "Joe"] _ (by decide),
   appended_name_nonempty.2 "t" [] timeoutListing [plainListing "Joe"]
     (Or.inl rfl)⟩

/-- C5 counterexample: an appended row has 8 cells (name, category,
address, rating, review count, website, phone, timestamp), not the 13
columns of the claimed schema: price level, hours, service options and
coordinates are omitted, not sentinel-filled. -/
theorem full_schema_refuted :
    run_scraper "2024" ["Name"] [plainListing "Joe"] =
      [["Joe", "N/A", "N/A", "N/A", "0", "N/A", "N/A", "2024"]] ∧
    (["Joe", "N/A", "N/A", "N/A", "0", "N/A", "N/A", "2024"] :
      List String).length ≠ 13 := by decide

/-- C5 amended: every appended row has exactly the 8 cells name,
category, address, rating, review count, website, phone, timestamp, in
that order, with the timestamp last; absent values among these are
sentinel-filled, and the remaining five schema columns are never
written. -/
theorem appended_row_eight_columns (now : String) (col1 : List String)
    (ls : List Listing) (row : List String)
    (h : row ∈ run_scraper now col1 ls) :
    row.length = 8 ∧ row.getLastD "" = now := by
  obtain ⟨l, _, n, _, _, rfl⟩ :=
    scrapeGo_row_origin now (ls.take 40) (col1.drop 1) row h
  exact ⟨buildRow_length now n l, buildRow_getLastD now n l⟩

/-- C5 amended witness: the concrete appended row has 8 cells ending in
the timestamp. -/
theorem appended_row_eight_columns_witness :
    (["Joe", "N/A", "N/A", "N/A", "0", "N/A", "N/A", "t"] :
      List String).length = 8 ∧
    (["Joe", "N/A", "N/A", "N/A", "0", "N/A", "N/A", "t"] :
      List String).getLastD "" = "t" :=
  appended_row_eight_columns "t" ["Name"] [plainListing "Joe"] _ (by decide)

/-- C6 counterexample: the extractor never splits on the separator glyph;
it only parses an `aria-label` containing the word "stars", so the text
block from the claim yields the defaults, not rating "4.5" with review
count "128". -/
theorem glyph_split_refuted :
    parseExtras (some "Cafe") (some (some "4.5 (128) · Cafe")) =
      ("Cafe", "0", "N/A") ∧
    (("Cafe", "0", "N/A") : String × String × String) ≠
      ("Cafe", "128", "4.5") := by decide

/-- C6 amended: the rating block handled by the code is the rating
container `aria-label`; a label without the word "stars" leaves the
defaults, while a label of the form rating-then-count such as
"4.5 stars 1,234" yields rating "4.5" and review count "1,234", with the
category taken from the separate category element. -/
theorem rating_label_parse :
    (∀ c lbl, containsSub lbl "stars" = false →
      parseExtras (some c) (some (some lbl)) = (c, "0", "N/A")) ∧
    parseExtras (some "Cafe") (some (some "4.5 stars 1,234")) =
      ("Cafe", "1,234", "4.5") := by
  constructor
  · intro c lbl h
    simp [parseExtras, h]
  · decide

/-- C6 amended witness: a starless label keeps the defaults. -/
theorem rating_label_parse_witness :
    parseExtras (some "Bar") (some (some "no rating here")) =
      ("Bar", "0", "N/A") :=
  rating_label_parse.1 "Bar" "no rating here" (by decide)

/-- C7 counterexample: a malformed rating label that does contain the
word "stars" is not recovered to the sentinel: the label "stars" yields
the empty string as rating, not "N/A". -/
theorem sentinel_recovery_refuted :
    parseExtras (some "Cafe") (some (some "stars")) = ("Cafe", "0", "") ∧
    ("" : String) ≠ "N/A" := by decide

/-- C7 amended: a field-level anomaly never propagates and never aborts
the batch — a listing with an accepted name always yields its full row
and the loop moves on — and a missing category element, missing rating
container or missing `aria-label` is recovered to the sentinels; but a
malformed label containing "stars" may be recovered to the empty string
instead of a sentinel. -/
theorem anomaly_local_recovery :
    (∀ (now : String) (ex : List String) (l : Listing) (ls : List Listing)
        (n : String), l.h1 = some n → ¬(n = "" ∨ n ∈ ex) →
        scrapeGo now ex (l :: ls) =
          buildRow now n l :: scrapeGo now (n :: ex) ls) ∧
    (∀ a, parseExtras none a = ("N/A", "0", "N/A")) ∧
    (∀ c, parseExtras (some c) none = (c, "0", "N/A") ∧
      parseExtras (some c) (some none) = (c, "0", "N/A")) :=
  ⟨fun now ex l ls n h hs => scrapeGo_cons_acc now ex l ls n h hs,
   fun _ => rfl, fun _ => ⟨rfl, rfl⟩⟩

/-- Listing whose extras are anomalous: the rating label is the bare word
"stars". -/
def anomalyListing : Listing :=
  ⟨some "Joe", none, none, none, some "Cafe", some (some "stars")⟩

/-- C7 amended witness: the anomalous listing still yields its row and
the next listing is still processed; the missing-element cases recover to
the sentinels. -/
theorem anomaly_local_recovery_witness :
    scrapeGo "t" [] [anomalyListing, plainListing "Ann"] =
      buildRow "t" "Joe" anomalyListing ::
        scrapeGo "t" ["Joe"] [plainListing "Ann"] ∧
    parseExtras none (some (some "4.5 stars 2")) = ("N/A", "0", "N/A") ∧
    (parseExtras (some "Cafe") none = ("Cafe", "0", "N/A") ∧
      parseExtras (some "Cafe") (some none) = ("Cafe", "0", "N/A")) :=
  ⟨anomaly_local_recovery.1 "t" [] anomalyListing [plainListing "Ann"] "Joe"
      rfl (by decide),
   anomaly_local_recovery.2.1 (some (some "4.5 stars 2")),
   anomaly_local_recovery.2.2 "Cafe"⟩

/-- C8: an exception raised while processing listing `k` still finalizes
the run with everything accumulated so far: the appended batch equals the
batch of a clean run over the first `k` listings, and concretely a
failure on the sixth listing appends exactly the 5 accumulated rows. -/
theorem failure_appends_accumulated :
    (∀ (now : String) (col1 : List String) (ls : List Listing) (k : Nat),
        run_scraperFail now col1 ls k = run_scraper now col1 (ls.take k)) ∧
    (run_scraperFail "t" ["Name"]
        (List.map plainListing ["a", "b", "c", "d", "e", "f"]) 5).length
      = 5 := by
  constructor
  · intro now col1 ls k
    simp only [run_scraperFail, run_scraper, List.take_take]
    rw [Nat.min_comm]
  · decide

/-- C9: the detail loop of every invocation is bounded by the fixed
40-listing budget: only the first 40 listings are ever visited and at
most 40 rows are appended, however long the collected listing sequence
is. -/
theorem harvest_bounded (now : String) (col1 : List String)
    (ls : List Listing) :
    (run_scraper now col1 ls).length ≤ 40 ∧
    run_scraper now col1 ls = run_scraper now col1 (ls.take 40) := by
  constructor
  · refine (scrapeGo_length_le_helper now (ls.take 40) (col1.drop 1)).trans ?_
    rw [List.length_take]
    exact Nat.min_le_left _ _
  · simp [run_scraper, List.take_take]

/-- C10: the dedup seed is the worksheet column 1 without its first cell,
so a candidate whose name appears only in that header cell is not treated
as a duplicate: it is accepted and its name appears in the appended
batch. -/
theorem header_cell_not_dedup (now : String) (col1 : List String)
    (l : Listing) (ls : List Listing) (n : String) (h1 : l.h1 = some n)
    (hne : n ≠ "") (hfresh : n ∉ col1.drop 1) :
    n ∈ appendedNames (run_scraper now col1 (l :: ls)) := by
  have hs : ¬(n = "" ∨ n ∈ col1.drop 1) := by
    rintro (rfl | hc)
    · exact hne rfl
    · exact hfresh hc
  show n ∈ appendedNames (scrapeGo now (col1.drop 1) ((l :: ls).take 40))
  rw [show (l :: ls).take 40 = l :: ls.take 39 from rfl,
    scrapeGo_cons_acc now (col1.drop 1) l (ls.take 39) n h1 hs,
    appendedNames_cons, buildRow_headD]
  exact List.mem_cons_self _ _

/-- C10 witness: with column 1 equal to ["Alice", "Bob"], a listing named
"Alice" (the header cell) is appended. -/
theorem header_cell_not_dedup_witness :
    "Alice" ∈ appendedNames
      (run_scraper "t" ["Alice", "Bob"] [plainListing "Alice"]) :=
  header_cell_not_dedup "t" ["Alice", "Bob"] (plainListing "Alice") []
    "Alice" rfl (by decide) (by decide)

end Scraper
